/-
Verification of the grocery price-comparison and nearby-place resolution
logic of the repository (src/backend/rag_tools.py and
src/backend/maps/address.py), as a shallow embedding in Lean 4.

Conventions of the embedding:
* Python floats are modelled as exact rationals (ℚ); the float literal 0.7
  is the decimal 7/10.  None of the verified claims hinges on binary
  rounding of the float representation.
* Python dicts (insertion-ordered) are modelled as association lists in
  insertion order; Python sets of strings are modelled as lists used only
  through membership.
* Fallible code paths (a possible ZeroDivisionError) are modelled with
  `Except Unit`.
* External collaborators (the vector-store retrieval call, the places API,
  the `unicodedata`/haversine library math) enter as explicit parameters.
-/
import Mathlib

/-! ## Generic association-list helpers (model of Python dict access) -/

/-- `m.get(k, d)` on an insertion-ordered dict modelled as an association
list: the value at the first occurrence of `k`, or the default `d`. -/
def alist_get {α β : Type} [DecidableEq α] (m : List (α × β)) (k : α) (d : β) : β :=
  match m with
  | [] => d
  | (k', v) :: rest => if k' = k then v else alist_get rest k d

/-- `m[k] = v` on an insertion-ordered dict: replaces the value at the first
occurrence of `k`, or appends `(k, v)` when `k` is absent. -/
def alist_set {α β : Type} [DecidableEq α] (m : List (α × β)) (k : α) (v : β) :
    List (α × β) :=
  match m with
  | [] => [(k, v)]
  | (k', v') :: rest => if k' = k then (k', v) :: rest else (k', v') :: alist_set rest k v

/-- Python's `min(xs, key=f)` starting from a first element `x`: the fold
keeps the current best and replaces it only on a strictly smaller key, so
the first minimal element wins on ties. -/
def minByFold {α β : Type} [LinearOrder β] (f : α → β) (x : α) (xs : List α) : α :=
  xs.foldl (fun best y => if f y < f best then y else best) x

/-- Python's `max(xs, key=f)` starting from a first element `x`: replaces the
current best only on a strictly larger key, so the first maximal element
wins on ties. -/
def maxByFold {α β : Type} [LinearOrder β] (f : α → β) (x : α) (xs : List α) : α :=
  xs.foldl (fun best y => if f best < f y then y else best) x

/-- Python's `round(x, 2)` on our rational model: round `x * 100` to the
nearest integer, ties to even (banker's rounding), then divide by 100. -/
def roundHalfEven (x : ℚ) : ℤ :=
  let f := ⌊x⌋
  let r := x - f
  if r < 1/2 then f
  else if 1/2 < r then f + 1
  else if f % 2 = 0 then f else f + 1

/-- `round(x, 2)` from the source's percentage formatting. -/
def round2 (x : ℚ) : ℚ := (roundHalfEven (x * 100) : ℚ) / 100

/-! ## Data model of `rag_tools.py` -/

/-- `GroceryItem` dataclass: one candidate product match from a store. -/
structure GroceryItem where
  name : String
  store : String
  price : ℚ
  price_original : Option ℚ
  amount : String
  unit : String
  description : String
  category : String
  similarity_score : ℚ
deriving Repr, DecidableEq

/-- One raw retrieval result from `rag.retrieve_context` (the external
similarity-search collaborator), with the numeric metadata already parsed:
the source's `float(...)`-with-default parsing means `price` is the parsed
price or `0` and `price_original` is the parsed original price or absent. -/
structure RagResult where
  text : String
  source : String
  price : ℚ
  price_original : Option ℚ
  amount : String
  unit : String
  description : String
  category : String
  score : ℚ
deriving Repr, DecidableEq

/-- `PriceComparison` dataclass. `items_by_store` and `price_differences`
are insertion-ordered dicts, modelled as association lists. -/
structure PriceComparison where
  query : String
  cheapest_store : String
  cheapest_price : ℚ
  items_by_store : List (String × List GroceryItem)
  price_differences : List (String × ℚ)
  recommendation : String
deriving Repr, DecidableEq

/-- Builds the `GroceryItem` constructed in `search_groceries` from one
retrieval result. -/
def itemOfResult (r : RagResult) : GroceryItem :=
  { name := r.text
    store := r.source
    price := r.price
    price_original := r.price_original
    amount := r.amount
    unit := r.unit
    description := r.description
    category := r.category
    similarity_score := r.score }

/-- `search_groceries`: drops every result whose similarity score is below
`min_similarity` (the source skips on `score < min_similarity`) and builds
the `GroceryItem` list in retrieval order.  The retrieval call itself is the
external collaborator; its result list is the argument `results`. -/
def search_groceries (min_similarity : ℚ) (results : List RagResult) :
    List GroceryItem :=
  (results.filter (fun r => ¬ r.score < min_similarity)).map itemOfResult

/-- One step of the `defaultdict(list)` grouping loop in `compare_prices`:
append `it` to the group of its store, creating the group at the end when
the store is new. -/
def addToGroups (gs : List (String × List GroceryItem)) (it : GroceryItem) :
    List (String × List GroceryItem) :=
  match gs with
  | [] => [(it.store, [it])]
  | (s, l) :: rest =>
      if s = it.store then (s, l ++ [it]) :: rest
      else (s, l) :: addToGroups rest it

/-- `items_by_store`: groups the surviving items by store, keys in
first-seen order, each group in retrieval order. -/
def groupByStore (items : List GroceryItem) : List (String × List GroceryItem) :=
  items.foldl addToGroups []

/-- `min(store_items, key=lambda x: x.price)`.  Groups produced by
`groupByStore` are never empty, so the `[]` case is unreachable; it returns
a dummy item. -/
def minPriceItem : List GroceryItem → GroceryItem
  | [] => ⟨"", "", 0, none, "", "", "", "", 0⟩
  | x :: xs => minByFold (fun it => it.price) x xs

/-- `store_prices`: each store's representative price, the price of the
cheapest item in its group. -/
def storePricesOf (groups : List (String × List GroceryItem)) : List (String × ℚ) :=
  groups.map (fun g => (g.1, (minPriceItem g.2).price))

/-- `min(store_prices, key=store_prices.get)` paired with its value: the
first store (in dict order) with the minimal representative price.  The `[]`
case is unreachable in `compare_prices` (the item list is non-empty there). -/
def minPricePair : List (String × ℚ) → (String × ℚ)
  | [] => ("", 0)
  | x :: xs => minByFold Prod.snd x xs

/-- The `price_differences` loop.  For each store in dict order: a store
whose representative price is not positive is assigned `0.0`; otherwise the
source divides by `cheapest_price`, which raises `ZeroDivisionError` when
`cheapest_price` is zero — modelled as `Except.error ()`, raised at the
first offending store exactly as the Python loop does. -/
def price_differences_calc : List (String × ℚ) → ℚ → Except Unit (List (String × ℚ))
  | [], _ => .ok []
  | sp :: rest, c =>
      if 0 < sp.2 then
        if c = 0 then .error ()
        else
          match price_differences_calc rest c with
          | .error e => .error e
          | .ok pd => .ok ((sp.1, round2 ((sp.2 - c) / c * 100)) :: pd)
      else
        match price_differences_calc rest c with
        | .error e => .error e
        | .ok pd => .ok ((sp.1, 0) :: pd)

/-- `_generate_recommendation` builds a display-only formatted multi-line
string from data already present in the other fields; its text is not part
of any verified property, so the embedding keeps it as a constant. -/
def generate_recommendation : String := ""

/-- `compare_prices`: search, group by store, pick each store's cheapest
item as its representative, find the overall cheapest store, compute
percentage differences.  Returns `ok none` when no item survives the
similarity filter, and `error ()` when the difference loop divides by
zero. -/
def compare_prices (min_similarity : ℚ) (query : String) (results : List RagResult) :
    Except Unit (Option PriceComparison) :=
  let items := search_groceries min_similarity results
  if items.isEmpty then .ok none
  else
    let items_by_store := groupByStore items
    let store_prices := storePricesOf items_by_store
    let cp := minPricePair store_prices
    match price_differences_calc store_prices cp.2 with
    | .error e => .error e
    | .ok pd =>
        .ok (some
          { query := query
            cheapest_store := cp.1
            cheapest_price := cp.2
            items_by_store := items_by_store
            price_differences := pd
            recommendation := generate_recommendation })

/-- `compare_shopping_list`: runs `compare_prices` per query; queries with
no surviving candidates are omitted; the result dict maps each query to its
comparison (`upsert` because Python dict assignment overwrites a repeated
query). -/
def compare_shopping_list (min_similarity : ℚ) (retrieve : String → List RagResult)
    (items : List String) : Except Unit (List (String × PriceComparison)) :=
  items.foldlM (fun acc q => do
    let c ← compare_prices min_similarity q (retrieve q)
    match c with
    | none => pure acc
    | some comp => pure (alist_set acc q comp)) []

/-! ## `get_best_store_for_list` -/

/-- `all_stores`: the union of the store keys of every comparison.  The
source uses a Python set (arbitrary iteration order); the embedding fixes
first-seen order — every verified property is invariant under the order. -/
def all_stores_of (comps : List (String × PriceComparison)) : List String :=
  comps.foldl (fun acc c =>
    c.2.items_by_store.foldl (fun a g => if g.1 ∈ a then a else a ++ [g.1]) acc) []

/-- The running state of the totals loop: the `store_totals` and
`store_item_counts` defaultdicts. -/
structure ListState where
  totals : List (String × ℚ)
  counts : List (String × ℕ)
deriving Repr, DecidableEq

/-- One inner iteration of the totals loop: for one comparison and one
store, when the store has items for that query, add the price of the item
with the highest similarity score (`max(store_items, key=similarity)`,
first maximal on ties) to the store's total and bump its count. -/
def accum_item (st : ListState) (comp : PriceComparison) (store : String) : ListState :=
  match alist_get comp.items_by_store store [] with
  | [] => st
  | x :: xs =>
      let best := maxByFold (fun it => it.similarity_score) x xs
      { totals := alist_set st.totals store (alist_get st.totals store 0 + best.price)
        counts := alist_set st.counts store (alist_get st.counts store 0 + 1) }

/-- The full totals loop: over comparisons (outer) and stores (inner). -/
def accum_all (comps : List (String × PriceComparison)) (stores : List String) :
    ListState :=
  comps.foldl (fun st c => stores.foldl (fun st' s => accum_item st' c.2 s) st)
    ⟨[], []⟩

/-- `valid_stores`: the stores whose item count reaches at least 70% of the
requested item count — the source's literal comparison
`count >= max_items * 0.7`. -/
def valid_stores_of (totals : List (String × ℚ)) (counts : List (String × ℕ))
    (max_items : ℕ) : List (String × ℚ) :=
  totals.filter (fun p => (max_items : ℚ) * (7/10) ≤ ((alist_get counts p.1 0 : ℕ) : ℚ))

/-- The shape of the dictionary `get_best_store_for_list` returns: the three
result shapes of the source, keeping the machine-readable fields (the
formatted recommendation text and per-item breakdown are display-only). -/
inductive BestStoreResult where
  | no_products : BestStoreResult
  | no_valid_store (total_by_store : List (String × ℚ)) : BestStoreResult
  | best (best_store : String) (best_total : ℚ)
      (total_by_store : List (String × ℚ)) : BestStoreResult
deriving Repr, DecidableEq

/-- `get_best_store_for_list`: compare every query, total each store's
best-similarity match prices, keep stores covering at least 70% of the
requested items, and pick the valid store with the lowest total (first
minimal on ties).  `best_total` and the reported totals are rounded to two
decimals as in the source's result dict. -/
def get_best_store_for_list (min_similarity : ℚ) (retrieve : String → List RagResult)
    (items : List String) : Except Unit BestStoreResult := do
  let comparisons ← compare_shopping_list min_similarity retrieve items
  if comparisons.isEmpty then
    pure .no_products
  else
    let stores := all_stores_of comparisons
    let st := accum_all comparisons stores
    let valid := valid_stores_of st.totals st.counts items.length
    if valid.isEmpty then
      pure (.no_valid_store (st.totals.map (fun p => (p.1, round2 p.2))))
    else
      let bp := minPricePair valid
      pure (.best bp.1 (round2 bp.2) (st.totals.map (fun p => (p.1, round2 p.2))))

/-! ## Data model of `maps/address.py` -/

/-- One place object of an API response page, keeping the fields the source
reads through the field mask: `id`, `displayName.text` and `location`.
Absent `id`, absent `displayName.text` and absent coordinates are all
representable. -/
structure RawPlace where
  id : Option String
  displayName : Option String
  latitude : Option ℚ
  longitude : Option ℚ
deriving Repr, DecidableEq

/-- One response page: its `places` array and whether a `nextPageToken` is
present. -/
structure Page where
  places : List RawPlace
  nextPageToken : Bool
deriving Repr, DecidableEq

/-- The tuple `(dist_m, name, plat, plng, pid)` accumulated in `results`. -/
structure PlaceTuple where
  dist : ℚ
  name : String
  plat : ℚ
  plng : ℚ
  pid : String
deriving Repr, DecidableEq

/-- One entry of the returned list of dicts. -/
structure PlaceOut where
  distance_m : ℤ
  name : String
  lat : ℚ
  lng : ℚ
  place_id : String
deriving Repr, DecidableEq

/-- Python's `int(...)` on a float: truncation toward zero. -/
def intTrunc (q : ℚ) : ℤ := if q < 0 then ⌈q⌉ else ⌊q⌋

/-- The body of the page loop over `data.get("places", [])`: skip a place
with a falsy (absent or empty) id or an already-seen id; otherwise record
the id as seen, then skip the place when a coordinate is absent (note the id
is recorded before the coordinate check, as in the source); otherwise append
the tuple.  `hav` is the `_haversine_m` library computation (transcendental
float math, kept as an explicit parameter). -/
def processPage (hav : ℚ → ℚ → ℚ → ℚ → ℚ) (lat lng : ℚ) :
    List RawPlace → List String → List PlaceTuple → (List String × List PlaceTuple)
  | [], seen, results => (seen, results)
  | p :: rest, seen, results =>
      match p.id with
      | none => processPage hav lat lng rest seen results
      | some pid =>
          if pid = "" ∨ pid ∈ seen then processPage hav lat lng rest seen results
          else
            let seen' := seen ++ [pid]
            let name := p.displayName.getD "N/A"
            match p.latitude, p.longitude with
            | some plat, some plng =>
                processPage hav lat lng rest seen'
                  (results ++ [⟨hav lat lng plat plng, name, plat, plng, pid⟩])
            | some _, none => processPage hav lat lng rest seen' results
            | none, _ => processPage hav lat lng rest seen' results

/-- The `while pages < max_pages and len(results) < min_unique` loop.
`pages` is the sequence of responses the external API would serve on
successive requests; the loop stops early when a page has no
`nextPageToken`, when the page budget is spent, or when enough unique
results were collected (checked before each request, as in the source). -/
def fetchPages (hav : ℚ → ℚ → ℚ → ℚ → ℚ) (lat lng : ℚ)
    (maxPages minUnique : ℕ) :
    List Page → ℕ → List String → List PlaceTuple → List PlaceTuple
  | [], _, _, results => results
  | page :: rest, pagesDone, seen, results =>
      if pagesDone < maxPages ∧ results.length < minUnique then
        let sr := processPage hav lat lng page.places seen results
        if page.nextPageToken then
          fetchPages hav lat lng maxPages minUnique rest (pagesDone + 1) sr.1 sr.2
        else sr.2
      else results

/-- Python's `\s` character class restricted to ASCII (after the
`encode("ascii", "ignore")` step only ASCII characters remain). -/
def isPySpace (c : Char) : Bool :=
  c = ' ' ∨ c = '\t' ∨ c = '\n' ∨ c = '\r' ∨ c = '\x0b' ∨ c = '\x0c'

/-- The `re.sub(r"[^a-zA-Z0-9\s]", " ", ...)` step on one character. -/
def subNonAlnumChar (c : Char) : Char :=
  if c.isAlphanum ∨ isPySpace c then c else ' '

/-- The first whitespace-delimited token of a character list: an empty list
when the list is all whitespace.  Collapsing whitespace runs, stripping,
and taking `split(" ")[0]` yields exactly this token. -/
def firstToken (cs : List Char) : List Char :=
  (cs.dropWhile isPySpace).takeWhile (fun c => ¬ isPySpace c)

/-- Python's `str.strip()` restricted to the ASCII whitespace class. -/
def pyStrip (cs : List Char) : List Char :=
  ((cs.dropWhile isPySpace).reverse.dropWhile isPySpace).reverse

/-- `_brand_key`: NFKD-normalize and drop non-ASCII (`translit`, the
`unicodedata`/codec library step, an explicit parameter), replace
non-alphanumerics by spaces, lowercase, collapse and strip whitespace, and
take the first token; when nothing remains, fall back to the stripped,
lowercased original name. -/
def brand_key (translit : String → String) (n : String) : String :=
  let cleaned := ((translit n).data.map subNonAlnumChar).map Char.toLower
  let tok := firstToken cleaned
  if tok = [] then String.mk ((pyStrip n.data).map Char.toLower)
  else String.mk tok

/-- The brand-capping loop: walk the sorted list once, counting kept places
per brand key, and skip a place whose brand already reached
`max_per_brand`. -/
def brandCapLoop (translit : String → String) (maxPerBrand : ℕ) :
    List PlaceTuple → List (String × ℕ) → List PlaceTuple
  | [], _ => []
  | item :: rest, counts =>
      let bk := brand_key translit item.name
      let cnt := alist_get counts bk 0
      if maxPerBrand ≤ cnt then brandCapLoop translit maxPerBrand rest counts
      else item :: brandCapLoop translit maxPerBrand rest (alist_set counts bk (cnt + 1))

/-- The comparison used to model `results.sort(key=lambda x: x[0])`:
non-decreasing distance. -/
def distLE (a b : PlaceTuple) : Prop := a.dist ≤ b.dist

instance : DecidableRel distLE := fun a b => inferInstanceAs (Decidable (a.dist ≤ b.dist))

instance : IsTotal PlaceTuple distLE := ⟨fun a b => le_total a.dist b.dist⟩

instance : IsTrans PlaceTuple distLE := ⟨fun _ _ _ h h' => le_trans h h'⟩

/-- The raw tuples collected by the page loop of `find_nearby_places`. -/
def fetch_results (hav : ℚ → ℚ → ℚ → ℚ → ℚ) (lat lng : ℚ)
    (minUnique maxPages : ℕ) (pages : List Page) : List PlaceTuple :=
  fetchPages hav lat lng maxPages minUnique pages 0 [] []

/-- `results.sort(key=lambda x: x[0])`: Python's stable ascending sort,
modelled by insertion sort with the non-strict comparison (the unique
stable, ascending reordering). -/
def sorted_results (hav : ℚ → ℚ → ℚ → ℚ → ℚ) (lat lng : ℚ)
    (minUnique maxPages : ℕ) (pages : List Page) : List PlaceTuple :=
  (fetch_results hav lat lng minUnique maxPages pages).insertionSort distLE

/-- The output dict built from one tuple: `distance_m` is `int(dist)`. -/
def outOfTuple (t : PlaceTuple) : PlaceOut :=
  ⟨intTrunc t.dist, t.name, t.plat, t.plng, t.pid⟩

/-- `find_nearby_places`: fetch pages, deduplicate by id, sort by distance,
optionally cap per brand (`if max_per_brand > 0`), and build the output
dicts.  The API key check, request construction and `radius_m`/type
parameters only shape the external requests and are not part of the result
processing. -/
def find_nearby_places (hav : ℚ → ℚ → ℚ → ℚ → ℚ) (translit : String → String)
    (lat lng : ℚ) (minUnique maxPages maxPerBrand : ℕ) (pages : List Page) :
    List PlaceOut :=
  let sorted := sorted_results hav lat lng minUnique maxPages pages
  let capped :=
    if 0 < maxPerBrand then brandCapLoop translit maxPerBrand sorted [] else sorted
  capped.map outOfTuple

/-! ## Spec-side definitions and concrete inputs used by the claims -/

/-- `max(store_items, key=lambda x: x.similarity_score)` on a non-empty
group (the `[]` case is unreachable where this is used). -/
def maxSimItem : List GroceryItem → GroceryItem
  | [] => ⟨"", "", 0, none, "", "", "", "", 0⟩
  | x :: xs => maxByFold (fun it => it.similarity_score) x xs

/-- The comparisons (queries) whose `items_by_store` holds a non-empty
group for `store`: the queries the store covers. -/
def covered_queries (comps : List (String × PriceComparison)) (store : String) :
    List (String × PriceComparison) :=
  comps.filter (fun c => alist_get c.2.items_by_store store [] ≠ [])

/-- Spec-side definition, following the claim's words: the sum, over the
queries the store covers, of the store's representative price — the minimum
price among the store's candidates for that query. -/
def rep_price_total (comps : List (String × PriceComparison)) (store : String) : ℚ :=
  ((covered_queries comps store).map
    (fun c => (minPriceItem (alist_get c.2.items_by_store store [])).price)).sum

/-- What the totals loop of `get_best_store_for_list` actually sums per
store: the price of the highest-similarity candidate of each covered
query. -/
def best_match_total (comps : List (String × PriceComparison)) (store : String) : ℚ :=
  ((covered_queries comps store).map
    (fun c => (maxSimItem (alist_get c.2.items_by_store store [])).price)).sum

/-- A retrieval result with only the claim-relevant fields populated. -/
def mkResult (text store : String) (price score : ℚ) : RagResult :=
  ⟨text, store, price, none, "", "", "", "", score⟩

/-- Input refuting C1: for the single query, store "A" has a cheaper item
(price 1) with lower similarity and a dearer item (price 2) with higher
similarity. -/
def c1_retrieve : String → List RagResult := fun _ =>
  [mkResult "m2" "A" 2 (9/10), mkResult "m1" "A" 1 (5/10)]

/-- The comparisons computed for the C1 input. -/
def c1_comps : List (String × PriceComparison) :=
  (compare_shopping_list 0 c1_retrieve ["milk"]).toOption.getD []

/-- Input refuting C2: store "A" has representative price 0, store "B" has
a positive price, so the difference loop divides by the zero cheapest
price. -/
def c2_results : List RagResult := [mkResult "a" "A" 0 1, mkResult "b" "B" 5 1]

/-- Input for the C2 witness: both stores have representative price 0, so
no division is attempted and both differences are 0. -/
def c2w_results : List RagResult := [mkResult "a" "A" 0 1, mkResult "b" "B" 0 1]

/-- The comparison computed for the C2 witness input. -/
def c2w_pc : PriceComparison :=
  ((compare_prices 0 "m" c2w_results).toOption.getD none).getD ⟨"", "", 0, [], [], ""⟩

/-- The spec's 3-item shopping-list scenario: store "X" covers all three
queries at prices 1, 2, 3; store "Y" covers only the first two, cheaply. -/
def c3_retrieve : String → List RagResult := fun q =>
  if q = "a" then [mkResult "xa" "X" 1 (9/10), mkResult "ya" "Y" (1/2) (9/10)]
  else if q = "b" then [mkResult "xb" "X" 2 (9/10), mkResult "yb" "Y" (1/2) (9/10)]
  else [mkResult "xc" "X" 3 (9/10)]

/-- The comparisons computed for the 3-item scenario. -/
def c3_comps : List (String × PriceComparison) :=
  (compare_shopping_list 0 c3_retrieve ["a", "b", "c"]).toOption.getD []

/-- The totals/counts state computed for the 3-item scenario. -/
def c3_state : ListState := accum_all c3_comps (all_stores_of c3_comps)

/-- The spec scenario for a single comparison: candidates A 1.00, A 1.20,
B 1.10, all with similarity 0.9. -/
def c7_results : List RagResult :=
  [mkResult "a1" "A" 1 (9/10), mkResult "a2" "A" (6/5) (9/10),
   mkResult "b1" "B" (11/10) (9/10)]

/-- The comparison computed for the spec scenario. -/
def c7_pc : PriceComparison :=
  ((compare_prices (6/10) "q" c7_results).toOption.getD none).getD ⟨"", "", 0, [], [], ""⟩

/-- A concrete stand-in for the haversine parameter in witnesses. -/
def demo_hav : ℚ → ℚ → ℚ → ℚ → ℚ := fun _ _ a b => a + b

/-- Concrete response pages exercising deduplication, a missing id, an
empty id, missing coordinates, a repeated id and brand capping. -/
def demo_pages : List Page :=
  [⟨[⟨some "p1", some "Lidl Foo", some 3, some 0⟩,
     ⟨none, some "x", some 1, some 1⟩,
     ⟨some "", some "y", some 1, some 1⟩,
     ⟨some "p2", some "Lidl Bar", some 1, some 0⟩,
     ⟨some "p3", none, some 1, none⟩,
     ⟨some "p1", some "dup", some 9, some 9⟩], true⟩,
   ⟨[⟨some "p3", some "now ok", some 2, some 0⟩,
     ⟨some "p4", some "Tesco!", some 1, some 0⟩], false⟩]

/-! ## Helper lemmas: association lists and first-optimum folds -/

theorem alist_get_set_self {α β : Type} [DecidableEq α] (m : List (α × β)) (k : α)
    (v d : β) : alist_get (alist_set m k v) k d = v := by
  induction m with
  | nil => simp [alist_set, alist_get]
  | cons p rest ih =>
      obtain ⟨k', v'⟩ := p
      by_cases h : k' = k <;> simp [alist_set, alist_get, h, ih]

theorem alist_get_set_ne {α β : Type} [DecidableEq α] (m : List (α × β)) {k k' : α}
    (v d : β) (h : k ≠ k') : alist_get (alist_set m k v) k' d = alist_get m k' d := by
  induction m with
  | nil => simp [alist_set, alist_get, h]
  | cons p rest ih =>
      obtain ⟨k₀, v₀⟩ := p
      by_cases h₀ : k₀ = k
      · subst h₀; simp [alist_set, alist_get, h]
      · simp [alist_set, alist_get, h₀, ih]

theorem alist_get_of_mem {α β : Type} [DecidableEq α] {m : List (α × β)} {k : α}
    {v : β} (h : (k, v) ∈ m) (hnd : (m.map Prod.fst).Nodup) (d : β) :
    alist_get m k d = v := by
  induction m with
  | nil => cases h
  | cons p rest ih =>
      obtain ⟨k', v'⟩ := p
      rcases List.mem_cons.mp h with heq | hrest
      · obtain ⟨h1, h2⟩ := Prod.mk.injEq .. ▸ heq
        simp [alist_get, h1.symm, h2]
      · have hk : k' ≠ k := by
          rintro rfl
          exact (List.nodup_cons.mp hnd).1
            (List.mem_map.mpr ⟨(k', v), hrest, rfl⟩)
        simp [alist_get, hk, ih hrest (List.nodup_cons.mp hnd).2]

theorem mem_of_alist_get_ne {α β : Type} [DecidableEq α] (m : List (α × β)) (k : α)
    (d : β) (h : alist_get m k d ≠ d) : (k, alist_get m k d) ∈ m := by
  induction m with
  | nil => simp [alist_get] at h
  | cons p rest ih =>
      obtain ⟨k', v'⟩ := p
      by_cases hk : k' = k
      · subst hk; simp [alist_get]
      · simp only [alist_get, if_neg hk] at h ⊢
        exact List.mem_cons_of_mem _ (ih h)

theorem minByFold_cons {α β : Type} [LinearOrder β] (f : α → β) (x y : α)
    (ys : List α) :
    minByFold f x (y :: ys) = minByFold f (if f y < f x then y else x) ys := rfl

theorem minByFold_mem {α β : Type} [LinearOrder β] (f : α → β) (x : α) (xs : List α) :
    minByFold f x xs ∈ x :: xs := by
  induction xs generalizing x with
  | nil => simp [minByFold]
  | cons y ys ih =>
      rw [minByFold_cons]
      rcases List.mem_cons.mp (ih (if f y < f x then y else x)) with h | h
      · rw [h]
        split <;> simp
      · simp [List.mem_cons.mpr (Or.inr (List.mem_cons.mpr (Or.inr h)))]

theorem minByFold_le {α β : Type} [LinearOrder β] (f : α → β) (x : α) (xs : List α) :
    ∀ y ∈ x :: xs, f (minByFold f x xs) ≤ f y := by
  induction xs generalizing x with
  | nil => intro y hy; simp at hy; simp [minByFold, hy]
  | cons y ys ih =>
      intro z hz
      rw [minByFold_cons]
      have hzle : ∀ w, w ∈ (if f y < f x then y else x) :: ys →
          f (minByFold f (if f y < f x then y else x) ys) ≤ f w :=
        ih (if f y < f x then y else x)
      have hhead := hzle _ (List.mem_cons_self _ _)
      rcases List.mem_cons.mp hz with rfl | hz
      · refine le_trans hhead ?_
        split <;> simp_all [le_of_lt]
      · rcases List.mem_cons.mp hz with rfl | hz
        · refine le_trans hhead ?_
          split <;> simp_all [le_of_not_lt]
        · exact hzle _ (List.mem_cons_of_mem _ hz)

/-! ## Grouping lemmas (`items_by_store`) -/

theorem addToGroups_get (gs : List (String × List GroceryItem)) (it : GroceryItem)
    (s : String) :
    alist_get (addToGroups gs it) s [] =
      if it.store = s then alist_get gs s [] ++ [it] else alist_get gs s [] := by
  induction gs with
  | nil => by_cases h : it.store = s <;> simp [addToGroups, alist_get, h]
  | cons p rest ih =>
      obtain ⟨k, l⟩ := p
      by_cases hk : k = it.store
      · by_cases hs : k = s
        · have hits : it.store = s := hk.symm.trans hs
          simp [addToGroups, alist_get, hk, hs, hits]
        · have hits : ¬ it.store = s := fun h => hs (hk.trans h)
          simp [addToGroups, alist_get, hk, hs, hits]
      · by_cases hs : k = s
        · have hits : ¬ it.store = s := fun h => hk ((h.trans hs.symm).symm)
          have hk2 : ¬ s = it.store := fun h => hk (hs.trans h)
          simp [addToGroups, alist_get, hk, hs, hits, hk2]
        · simp [addToGroups, alist_get, hk, hs, ih]

theorem foldl_addToGroups_get (items : List GroceryItem)
    (gs : List (String × List GroceryItem)) (s : String) :
    alist_get (items.foldl addToGroups gs) s [] =
      alist_get gs s [] ++ items.filter (fun it => it.store = s) := by
  induction items generalizing gs with
  | nil => simp
  | cons it rest ih =>
      rw [List.foldl_cons, ih, addToGroups_get]
      by_cases h : it.store = s
      · simp [List.filter_cons, h]
      · simp [List.filter_cons, h]

theorem keys_addToGroups (gs : List (String × List GroceryItem)) (it : GroceryItem) :
    (addToGroups gs it).map Prod.fst =
      if it.store ∈ gs.map Prod.fst then gs.map Prod.fst
      else gs.map Prod.fst ++ [it.store] := by
  induction gs with
  | nil => simp [addToGroups]
  | cons p rest ih =>
      obtain ⟨k, l⟩ := p
      by_cases hk : k = it.store
      · simp [addToGroups, hk]
      · have hne : it.store ≠ k := fun h => hk h.symm
        simp only [addToGroups, if_neg hk, List.map_cons, ih]
        by_cases hm : it.store ∈ rest.map Prod.fst <;> simp [hm, hne]

theorem nodup_keys_foldl (items : List GroceryItem)
    (gs : List (String × List GroceryItem)) (h : (gs.map Prod.fst).Nodup) :
    (((items.foldl addToGroups gs)).map Prod.fst).Nodup := by
  induction items generalizing gs with
  | nil => exact h
  | cons it rest ih =>
      rw [List.foldl_cons]
      apply ih
      rw [keys_addToGroups]
      split
      · exact h
      · next hmem => simp [List.nodup_append, h, hmem]

theorem addToGroups_ne_nil (gs : List (String × List GroceryItem)) (it : GroceryItem)
    (h : ∀ p ∈ gs, p.2 ≠ []) : ∀ p ∈ addToGroups gs it, p.2 ≠ [] := by
  induction gs with
  | nil => simp [addToGroups]
  | cons q qs ihq =>
      obtain ⟨k, l⟩ := q
      by_cases hk : k = it.store
      · intro p hp
        simp only [addToGroups, if_pos hk] at hp
        rcases List.mem_cons.mp hp with rfl | hp
        · simp
        · exact h p (List.mem_cons_of_mem _ hp)
      · intro p hp
        simp only [addToGroups, if_neg hk] at hp
        rcases List.mem_cons.mp hp with rfl | hp
        · exact h _ (List.mem_cons_self _ _)
        · exact ihq (fun r hr => h r (List.mem_cons_of_mem _ hr)) p hp

theorem groups_ne_nil (items : List GroceryItem)
    (gs : List (String × List GroceryItem)) (h : ∀ p ∈ gs, p.2 ≠ []) :
    ∀ p ∈ items.foldl addToGroups gs, p.2 ≠ [] := by
  induction items generalizing gs with
  | nil => exact h
  | cons it rest ih =>
      rw [List.foldl_cons]
      exact ih _ (addToGroups_ne_nil gs it h)

/-! ## Claim C8: grouping and representative prices in `compare_prices` -/

/-- C8 (confirmed): in `compare_prices`, the surviving candidates are
grouped by store — each store's group is exactly the surviving items with
that store, in order — and the store's representative (`minPriceItem`,
whose price becomes the store's entry in `store_prices`) is an element of
the group whose price is a lower bound of the group's prices, i.e. the
minimum price among that store's surviving candidates. -/
theorem compare_prices_representative_min (min_similarity : ℚ)
    (results : List RagResult) (s : String) (l : List GroceryItem)
    (h : (s, l) ∈ groupByStore (search_groceries min_similarity results)) :
    l = (search_groceries min_similarity results).filter (fun it => it.store = s) ∧
    minPriceItem l ∈ l ∧ ∀ it ∈ l, (minPriceItem l).price ≤ it.price := by
  have hnd : ((groupByStore (search_groceries min_similarity results)).map
      Prod.fst).Nodup := nodup_keys_foldl _ [] (by simp)
  have hget := alist_get_of_mem h hnd []
  have hfold := foldl_addToGroups_get (search_groceries min_similarity results) [] s
  have hl : l = (search_groceries min_similarity results).filter
      (fun it => it.store = s) := by
    rw [← hget]
    simpa [groupByStore, alist_get] using hfold
  have hne : l ≠ [] := groups_ne_nil _ [] (by simp) (s, l) h
  refine ⟨hl, ?_, ?_⟩
  · cases l with
    | nil => exact absurd rfl hne
    | cons x xs => exact minByFold_mem _ x xs
  · cases l with
    | nil => exact absurd rfl hne
    | cons x xs => exact minByFold_le _ x xs

/-- Witness for C8 at the spec's scenario input: the representative of
store "A"'s group is one of its own candidates. -/
theorem compare_prices_representative_min_witness :
    minPriceItem (alist_get c7_pc.items_by_store "A" []) ∈
      alist_get c7_pc.items_by_store "A" [] :=
  (compare_prices_representative_min (6/10) c7_results "A"
    (alist_get c7_pc.items_by_store "A" []) (by with_unfolding_all decide)).2.1

/-! ## Claim C9: the absent outcome of `compare_prices` -/

/-- C9 (confirmed): `compare_prices` returns the absent outcome (`ok none`,
a normal value, not the error outcome) exactly when no candidate survives
the `min_similarity` filter. -/
theorem compare_prices_absent_iff (min_similarity : ℚ) (q : String)
    (results : List RagResult) :
    compare_prices min_similarity q results = .ok none ↔
      search_groceries min_similarity results = [] := by
  cases hres : search_groceries min_similarity results with
  | nil => simp [compare_prices, hres]
  | cons a as =>
      simp only [compare_prices, hres, List.isEmpty_cons, Bool.false_eq_true,
        if_false]
      split <;> simp

/-! ## The difference loop: error and success characterizations -/

theorem round2_zero : round2 0 = 0 := by
  norm_num [round2, roundHalfEven]

theorem pdc_error_iff (sp : List (String × ℚ)) (c : ℚ) :
    price_differences_calc sp c = .error () ↔ c = 0 ∧ ∃ p ∈ sp, 0 < p.2 := by
  induction sp with
  | nil => simp [price_differences_calc]
  | cons x xs ih =>
      constructor
      · intro h
        by_cases hx : 0 < x.2
        · by_cases hc : c = 0
          · exact ⟨hc, x, List.mem_cons_self _ _, hx⟩
          · simp only [price_differences_calc, if_pos hx, if_neg hc] at h
            rcases hm : price_differences_calc xs c with e | pd
            · cases e
              obtain ⟨hc0, _⟩ := ih.mp hm
              exact absurd hc0 hc
            · rw [hm] at h
              simp at h
        · simp only [price_differences_calc, if_neg hx] at h
          rcases hm : price_differences_calc xs c with e | pd
          · cases e
            obtain ⟨hc0, p, hp, hpp⟩ := ih.mp hm
            exact ⟨hc0, p, List.mem_cons_of_mem _ hp, hpp⟩
          · rw [hm] at h
            simp at h
      · rintro ⟨hc0, p, hp, hpp⟩
        rcases List.mem_cons.mp hp with rfl | hp
        · simp [price_differences_calc, hpp, hc0]
        · by_cases hx : 0 < x.2
          · simp [price_differences_calc, hx, hc0]
          · have hrec : price_differences_calc xs c = .error () :=
              ih.mpr ⟨hc0, p, hp, hpp⟩
            simp [price_differences_calc, hx, hrec]

theorem pdc_ok_eq (sp : List (String × ℚ)) (c : ℚ) (pd : List (String × ℚ))
    (h : price_differences_calc sp c = .ok pd) :
    pd = sp.map (fun p =>
      (p.1, if 0 < p.2 then round2 ((p.2 - c) / c * 100) else 0)) := by
  induction sp generalizing pd with
  | nil =>
      simp only [price_differences_calc, Except.ok.injEq] at h
      simp [← h]
  | cons x xs ih =>
      by_cases hx : 0 < x.2
      · by_cases hc : c = 0
        · simp [price_differences_calc, hx, hc] at h
        · simp only [price_differences_calc, if_pos hx, if_neg hc] at h
          rcases hm : price_differences_calc xs c with e | pds
          · rw [hm] at h
            simp at h
          · rw [hm] at h
            simp only [Except.ok.injEq] at h
            rw [← h]
            simp [List.map_cons, if_pos hx, ih pds hm]
      · simp only [price_differences_calc, if_neg hx] at h
        rcases hm : price_differences_calc xs c with e | pds
        · rw [hm] at h
          simp at h
        · rw [hm] at h
          simp only [Except.ok.injEq] at h
          rw [← h]
          simp [List.map_cons, if_neg hx, ih pds hm]

theorem addToGroups_ne_nil' (gs : List (String × List GroceryItem))
    (it : GroceryItem) : addToGroups gs it ≠ [] := by
  cases gs with
  | nil => simp [addToGroups]
  | cons p rest =>
      obtain ⟨k, l⟩ := p
      by_cases hk : k = it.store <;> simp [addToGroups, hk]

theorem foldl_addToGroups_ne_nil (items : List GroceryItem)
    (gs : List (String × List GroceryItem)) (h : gs ≠ []) :
    items.foldl addToGroups gs ≠ [] := by
  induction items generalizing gs with
  | nil => exact h
  | cons it rest ih => exact ih _ (addToGroups_ne_nil' gs it)

/-! ## Claim C7: the cheapest-store invariant of `compare_prices` -/

/-- C7 (confirmed): every `PriceComparison` returned by `compare_prices`
has `cheapest_price` equal to the minimum representative price over the
stores (its pair is an entry of `store_prices` and it bounds every
representative price from below), and the cheapest store's entry in
`price_differences` is `0.0`. -/
theorem compare_prices_cheapest_invariant (min_similarity : ℚ) (q : String)
    (results : List RagResult) (pc : PriceComparison) (sp : List (String × ℚ))
    (hsp : sp = storePricesOf (groupByStore (search_groceries min_similarity results)))
    (h : compare_prices min_similarity q results = .ok (some pc)) :
    (pc.cheapest_store, pc.cheapest_price) ∈ sp ∧
    (∀ p ∈ sp, pc.cheapest_price ≤ p.2) ∧
    (pc.cheapest_store, (0 : ℚ)) ∈ pc.price_differences := by
  subst hsp
  cases hres : search_groceries min_similarity results with
  | nil => simp [compare_prices, hres] at h
  | cons a as =>
      simp only [compare_prices, hres, List.isEmpty_cons, Bool.false_eq_true,
        if_false] at h
      rcases hm : price_differences_calc
          (storePricesOf (groupByStore (a :: as)))
          (minPricePair (storePricesOf (groupByStore (a :: as)))).2 with e | pd
      · rw [hm] at h
        simp at h
      · rw [hm] at h
        simp only [Except.ok.injEq, Option.some.injEq] at h
        have hgne : groupByStore (a :: as) ≠ [] := by
          have hstep : (a :: as).foldl addToGroups [] =
              as.foldl addToGroups (addToGroups [] a) := by
            simp
          rw [groupByStore, hstep]
          exact foldl_addToGroups_ne_nil as _ (addToGroups_ne_nil' [] a)
        have hne : storePricesOf (groupByStore (a :: as)) ≠ [] := by
          simpa [storePricesOf] using hgne
        obtain ⟨x, xs, hxxs⟩ : ∃ x xs,
            storePricesOf (groupByStore (a :: as)) = x :: xs := by
          cases hsp' : storePricesOf (groupByStore (a :: as)) with
          | nil => exact absurd hsp' hne
          | cons x xs => exact ⟨x, xs, rfl⟩
        have hmem : minPricePair (storePricesOf (groupByStore (a :: as))) ∈
            storePricesOf (groupByStore (a :: as)) := by
          rw [hxxs]
          exact minByFold_mem Prod.snd x xs
        have hle : ∀ p ∈ storePricesOf (groupByStore (a :: as)),
            (minPricePair (storePricesOf (groupByStore (a :: as)))).2 ≤ p.2 := by
          rw [hxxs]
          exact minByFold_le Prod.snd x xs
        have hpd := pdc_ok_eq _ _ _ hm
        refine ⟨?_, ?_, ?_⟩
        · rw [← h]
          exact hmem
        · rw [← h]
          exact hle
        · rw [← h]
          simp only
          rw [hpd]
          refine List.mem_map.mpr ⟨minPricePair (storePricesOf (groupByStore (a :: as))), hmem, ?_⟩
          have hz : ((minPricePair (storePricesOf (groupByStore (a :: as)))).2 -
              (minPricePair (storePricesOf (groupByStore (a :: as)))).2) /
              (minPricePair (storePricesOf (groupByStore (a :: as)))).2 * 100 = 0 := by
            rw [sub_self, zero_div, zero_mul]
          rw [hz, round2_zero]
          simp

/-- Witness for C7 at the spec's scenario input: the cheapest store's entry
in `price_differences` is 0. -/
theorem compare_prices_cheapest_invariant_witness :
    (c7_pc.cheapest_store, (0 : ℚ)) ∈ c7_pc.price_differences :=
  (compare_prices_cheapest_invariant (6/10) "q" c7_results c7_pc _ rfl
    (by with_unfolding_all rfl)).2.2

/-! ## Claim C2: division by zero in the difference loop -/

/-- Counterexample to C2 as stated: with one store at representative price
0 and another at a positive price, the cheapest price is 0 and the
difference loop divides by it — `compare_prices` raises
(`ZeroDivisionError`, modelled as `Except.error ()`), so it is not true
that the division branch is always reached safely. -/
theorem compare_prices_divzero_counterexample :
    compare_prices 0 "q" c2_results = .error () := by
  with_unfolding_all rfl

/-- C2 (amended): a store whose representative price is not positive is
assigned a difference of `0.0` without any division; but the division is by
`cheapest_price`, not the store's own price, so `compare_prices` raises a
division-by-zero error exactly when candidates survive, the minimum
representative price is 0, and some store's representative price is
positive. -/
theorem compare_prices_divzero_iff (min_similarity : ℚ) (q : String)
    (results : List RagResult) (sp : List (String × ℚ)) (c : ℚ)
    (hsp : sp = storePricesOf (groupByStore (search_groceries min_similarity results)))
    (hc : c = (minPricePair sp).2) :
    (compare_prices min_similarity q results = .error () ↔
      (search_groceries min_similarity results ≠ [] ∧ c = 0 ∧ ∃ p ∈ sp, 0 < p.2)) ∧
    (∀ pc, compare_prices min_similarity q results = .ok (some pc) →
      ∀ p ∈ sp, ¬ 0 < p.2 → (p.1, (0 : ℚ)) ∈ pc.price_differences) := by
  subst hsp hc
  constructor
  · cases hres : search_groceries min_similarity results with
    | nil => simp [compare_prices, hres]
    | cons a as =>
        simp only [compare_prices, hres, List.isEmpty_cons, Bool.false_eq_true,
          if_false]
        rcases hm : price_differences_calc
            (storePricesOf (groupByStore (a :: as)))
            (minPricePair (storePricesOf (groupByStore (a :: as)))).2 with e | pd
        · cases e
          obtain ⟨hc0, hex⟩ := (pdc_error_iff _ _).mp hm
          simp [hres, hc0, hex]
        · have hnoerr := (pdc_error_iff
            (storePricesOf (groupByStore (a :: as)))
            (minPricePair (storePricesOf (groupByStore (a :: as)))).2)
          rw [hm] at hnoerr
          simp only [hres]
          constructor
          · intro habs
            exact absurd habs (by simp)
          · rintro ⟨-, hc0, hex⟩
            exact absurd (hnoerr.mpr ⟨hc0, hex⟩) (by simp)
  · intro pc h p hp hneg
    cases hres : search_groceries min_similarity results with
    | nil => simp [compare_prices, hres] at h
    | cons a as =>
        rw [hres] at hp
        simp only [compare_prices, hres, List.isEmpty_cons, Bool.false_eq_true,
          if_false] at h
        rcases hm : price_differences_calc
            (storePricesOf (groupByStore (a :: as)))
            (minPricePair (storePricesOf (groupByStore (a :: as)))).2 with e | pd
        · rw [hm] at h
          simp at h
        · rw [hm] at h
          simp only [Except.ok.injEq, Option.some.injEq] at h
          rw [← h]
          simp only
          rw [pdc_ok_eq _ _ _ hm]
          exact List.mem_map.mpr ⟨p, hp, by simp [if_neg hneg]⟩

/-- Witness for C2's amended theorem: with both representative prices 0,
`compare_prices` succeeds and assigns store "A" a difference of 0. -/
theorem compare_prices_divzero_iff_witness :
    ("A", (0 : ℚ)) ∈ c2w_pc.price_differences :=
  (compare_prices_divzero_iff 0 "m" c2w_results _ _ rfl rfl).2 c2w_pc
    (by with_unfolding_all rfl) ("A", 0) (by with_unfolding_all decide)
    (by norm_num)

/-! ## Claim C1: totals and coverage counts in `get_best_store_for_list` -/

theorem accum_item_get (st : ListState) (c : PriceComparison) (s' s : String) :
    (alist_get (accum_item st c s').totals s 0 =
      alist_get st.totals s 0 +
        (if s' = s ∧ alist_get c.items_by_store s' [] ≠ [] then
          (maxSimItem (alist_get c.items_by_store s' [])).price else 0)) ∧
    (alist_get (accum_item st c s').counts s 0 =
      alist_get st.counts s 0 +
        (if s' = s ∧ alist_get c.items_by_store s' [] ≠ [] then 1 else 0)) := by
  rcases hg : alist_get c.items_by_store s' [] with _ | ⟨x, xs⟩
  · simp [accum_item, hg]
  · by_cases hs : s' = s
    · subst hs
      simp [accum_item, hg, alist_get_set_self, maxSimItem]
    · simp [accum_item, hg, alist_get_set_ne _ _ _ hs, hs]

theorem accum_stores_get (c : PriceComparison) (stores : List String)
    (st : ListState) (s : String) (hnd : stores.Nodup) :
    (alist_get (stores.foldl (fun st' s' => accum_item st' c s') st).totals s 0 =
      alist_get st.totals s 0 +
        (if s ∈ stores ∧ alist_get c.items_by_store s [] ≠ [] then
          (maxSimItem (alist_get c.items_by_store s [])).price else 0)) ∧
    (alist_get (stores.foldl (fun st' s' => accum_item st' c s') st).counts s 0 =
      alist_get st.counts s 0 +
        (if s ∈ stores ∧ alist_get c.items_by_store s [] ≠ [] then 1 else 0)) := by
  induction stores generalizing st with
  | nil => simp
  | cons s' rest ih =>
      obtain ⟨hns, hndr⟩ := List.nodup_cons.mp hnd
      obtain ⟨iht, ihc⟩ := ih (accum_item st c s') hndr
      obtain ⟨at', ac'⟩ := accum_item_get st c s' s
      rw [List.foldl_cons]
      constructor
      · rw [iht, at']
        by_cases hs : s' = s
        · subst hs
          simp [hns]
        · have : ¬ s = s' := fun h => hs h.symm
          simp [hs, this]
      · rw [ihc, ac']
        by_cases hs : s' = s
        · subst hs
          simp [hns]
        · have : ¬ s = s' := fun h => hs h.symm
          simp [hs, this]

theorem bmt_cons (c : String × PriceComparison) (cs : List (String × PriceComparison))
    (s : String) :
    best_match_total (c :: cs) s =
      (if alist_get c.2.items_by_store s [] ≠ [] then
        (maxSimItem (alist_get c.2.items_by_store s [])).price else 0) +
      best_match_total cs s := by
  by_cases hc : alist_get c.2.items_by_store s [] ≠ [] <;>
    simp [best_match_total, covered_queries, List.filter_cons, hc]

theorem covered_cons (c : String × PriceComparison)
    (cs : List (String × PriceComparison)) (s : String) :
    (covered_queries (c :: cs) s).length =
      (if alist_get c.2.items_by_store s [] ≠ [] then 1 else 0) +
      (covered_queries cs s).length := by
  by_cases hc : alist_get c.2.items_by_store s [] ≠ [] <;>
    simp [covered_queries, List.filter_cons, hc] <;> omega

theorem accum_comps_get (comps : List (String × PriceComparison))
    (stores : List String) (st : ListState) (s : String) (hnd : stores.Nodup) :
    (alist_get (comps.foldl
        (fun acc c => stores.foldl (fun st' s' => accum_item st' c.2 s') acc)
        st).totals s 0 =
      alist_get st.totals s 0 +
        (if s ∈ stores then best_match_total comps s else 0)) ∧
    (alist_get (comps.foldl
        (fun acc c => stores.foldl (fun st' s' => accum_item st' c.2 s') acc)
        st).counts s 0 =
      alist_get st.counts s 0 +
        (if s ∈ stores then (covered_queries comps s).length else 0)) := by
  induction comps generalizing st with
  | nil => simp [best_match_total, covered_queries]
  | cons c cs ih =>
      obtain ⟨iht, ihc⟩ := ih (stores.foldl (fun st' s' => accum_item st' c.2 s') st)
      obtain ⟨st', sc'⟩ := accum_stores_get c.2 stores st s hnd
      rw [List.foldl_cons]
      constructor
      · rw [iht, st', bmt_cons]
        by_cases hm : s ∈ stores
        · by_cases hc : alist_get c.2.items_by_store s [] ≠ [] <;>
            simp [hm, hc] <;> ring
        · simp [hm]
      · rw [ihc, sc', covered_cons]
        by_cases hm : s ∈ stores
        · by_cases hc : alist_get c.2.items_by_store s [] ≠ [] <;>
            simp [hm, hc] <;> ring
        · simp [hm]

theorem storeKeysFold_mem_mono (m : List (String × List GroceryItem))
    (acc : List String) (s : String) (h : s ∈ acc) :
    s ∈ m.foldl (fun a g => if g.1 ∈ a then a else a ++ [g.1]) acc := by
  induction m generalizing acc with
  | nil => exact h
  | cons p rest ih =>
      rw [List.foldl_cons]
      apply ih
      split
      · exact h
      · exact List.mem_append_left _ h

theorem storeKeysFold_mem_keys (m : List (String × List GroceryItem))
    (acc : List String) (s : String) (h : ∃ v, (s, v) ∈ m) :
    s ∈ m.foldl (fun a g => if g.1 ∈ a then a else a ++ [g.1]) acc := by
  induction m generalizing acc with
  | nil => obtain ⟨v, hv⟩ := h; cases hv
  | cons p rest ih =>
      obtain ⟨v, hv⟩ := h
      rw [List.foldl_cons]
      rcases List.mem_cons.mp hv with rfl | hv
      · apply storeKeysFold_mem_mono
        split
        · assumption
        · simp
      · exact ih _ ⟨v, hv⟩

theorem storeKeysFold_nodup (m : List (String × List GroceryItem))
    (acc : List String) (h : acc.Nodup) :
    (m.foldl (fun a g => if g.1 ∈ a then a else a ++ [g.1]) acc).Nodup := by
  induction m generalizing acc with
  | nil => exact h
  | cons p rest ih =>
      rw [List.foldl_cons]
      apply ih
      split
      · exact h
      · next hnm => simp [List.nodup_append, h, hnm]

theorem all_stores_mono (comps : List (String × PriceComparison))
    (acc : List String) (s : String) (h : s ∈ acc) :
    s ∈ comps.foldl (fun acc' c =>
      c.2.items_by_store.foldl (fun a g => if g.1 ∈ a then a else a ++ [g.1]) acc')
      acc := by
  induction comps generalizing acc with
  | nil => exact h
  | cons c cs ih =>
      rw [List.foldl_cons]
      exact ih _ (storeKeysFold_mem_mono _ _ _ h)

theorem mem_all_stores_fold (comps : List (String × PriceComparison))
    (acc : List String) (c : String × PriceComparison) (hc : c ∈ comps) (s : String)
    (h : ∃ v, (s, v) ∈ c.2.items_by_store) :
    s ∈ comps.foldl (fun acc' c' =>
      c'.2.items_by_store.foldl (fun a g => if g.1 ∈ a then a else a ++ [g.1]) acc')
      acc := by
  induction comps generalizing acc with
  | nil => cases hc
  | cons c' cs ih =>
      rw [List.foldl_cons]
      rcases List.mem_cons.mp hc with rfl | hc
      · exact all_stores_mono _ _ _ (storeKeysFold_mem_keys _ _ _ h)
      · exact ih _ hc

theorem mem_all_stores_of (comps : List (String × PriceComparison))
    (c : String × PriceComparison) (hc : c ∈ comps) (s : String)
    (h : ∃ v, (s, v) ∈ c.2.items_by_store) : s ∈ all_stores_of comps := by
  rw [all_stores_of]
  exact mem_all_stores_fold comps [] c hc s h

theorem nodup_all_stores_of (comps : List (String × PriceComparison)) :
    (all_stores_of comps).Nodup := by
  rw [all_stores_of]
  have h : ∀ (acc : List String), acc.Nodup →
      (comps.foldl (fun acc' c =>
        c.2.items_by_store.foldl (fun a g => if g.1 ∈ a then a else a ++ [g.1]) acc')
        acc).Nodup := by
    induction comps with
    | nil => intro acc h; exact h
    | cons c cs ih =>
        intro acc h
        rw [List.foldl_cons]
        exact ih _ (storeKeysFold_nodup _ _ h)
  exact h [] (List.nodup_nil)

/-- C1 (amended): for every store, the total accumulated by
`get_best_store_for_list` equals the sum, over the queries the store
covers, of the price of the store's highest-similarity candidate for that
query (the loop adds `max(store_items, key=similarity).price`, not the
minimum-price representative), and the coverage count equals the number of
covered queries. -/
theorem get_best_store_totals_eq (comps : List (String × PriceComparison))
    (s : String) :
    alist_get (accum_all comps (all_stores_of comps)).totals s 0 =
      best_match_total comps s ∧
    alist_get (accum_all comps (all_stores_of comps)).counts s 0 =
      (covered_queries comps s).length := by
  obtain ⟨ht, hc⟩ := accum_comps_get comps (all_stores_of comps) ⟨[], []⟩ s
    (nodup_all_stores_of comps)
  rw [accum_all, ht, hc]
  by_cases hm : s ∈ all_stores_of comps
  · simp [alist_get, hm]
  · have hcov : covered_queries comps s = [] := by
      rw [covered_queries, List.filter_eq_nil]
      intro c hcmem
      simp only [Bool.not_eq_true, decide_eq_false_iff_not, not_not,
        Decidable.not_not]
      by_contra hne
      exact hm (mem_all_stores_of comps c hcmem s
        ⟨alist_get c.2.items_by_store s [],
          mem_of_alist_get_ne _ _ _ (by simpa using hne)⟩)
    simp [alist_get, hm, hcov, best_match_total]

/-- Counterexample to C1 as stated: for the single-query list, store "A"'s
computed total is 2 (the price of its highest-similarity candidate), while
the sum of its minimum-price representatives over covered queries is 1 —
so the total is not the sum of representative prices. -/
theorem get_best_store_rep_total_counterexample :
    get_best_store_for_list 0 c1_retrieve ["milk"] =
        .ok (.best "A" 2 [("A", 2)]) ∧
    alist_get (accum_all c1_comps (all_stores_of c1_comps)).totals "A" 0 = 2 ∧
    rep_price_total c1_comps "A" = 1 ∧ (2 : ℚ) ≠ 1 := by
  refine ⟨by with_unfolding_all rfl, by with_unfolding_all rfl,
    by with_unfolding_all rfl, by norm_num⟩

/-! ## Claim C3: the 70% coverage filter and best-store selection -/

/-- C3 (confirmed): a store's entry survives into `valid_stores` exactly
when its coverage count satisfies the literal comparison
`count >= (number of requested items) * 0.7`; and whenever
`get_best_store_for_list` names a best store, that store is a valid store
whose total is minimal among the valid stores (its reported total being the
two-decimal rounding of the exact one). -/
theorem get_best_store_valid_iff_and_min (min_similarity : ℚ)
    (retrieve : String → List RagResult) (items : List String)
    (comps : List (String × PriceComparison))
    (h : compare_shopping_list min_similarity retrieve items = .ok comps)
    (st : ListState) (hst : st = accum_all comps (all_stores_of comps))
    (valid : List (String × ℚ))
    (hvalid : valid = valid_stores_of st.totals st.counts items.length) :
    (∀ s t, (s, t) ∈ valid ↔
      ((s, t) ∈ st.totals ∧
        ((items.length : ℕ) : ℚ) * (7/10) ≤ ((alist_get st.counts s 0 : ℕ) : ℚ))) ∧
    (∀ bs bt tbs, get_best_store_for_list min_similarity retrieve items =
        .ok (.best bs bt tbs) →
      ∃ t, (bs, t) ∈ valid ∧ bt = round2 t ∧ ∀ p ∈ valid, t ≤ p.2) := by
  subst hvalid hst
  constructor
  · intro s t
    simp [valid_stores_of, List.mem_filter]
  · intro bs bt tbs hbest
    simp only [get_best_store_for_list, h, Bind.bind, Except.bind] at hbest
    cases comps with
    | nil => simp [pure, Except.pure] at hbest
    | cons c cs =>
        simp only [List.isEmpty_cons, Bool.false_eq_true, if_false] at hbest
        split at hbest
        · simp [pure, Except.pure] at hbest
        · next hvne =>
            simp only [pure, Except.pure, Except.ok.injEq,
              BestStoreResult.best.injEq] at hbest
            obtain ⟨hbs, hbt, -⟩ := hbest
            have hvne' : valid_stores_of
                (accum_all (c :: cs) (all_stores_of (c :: cs))).totals
                (accum_all (c :: cs) (all_stores_of (c :: cs))).counts
                items.length ≠ [] := by
              intro hnil
              rw [hnil] at hvne
              simp at hvne
            obtain ⟨x, xs, hxxs⟩ : ∃ x xs, valid_stores_of
                (accum_all (c :: cs) (all_stores_of (c :: cs))).totals
                (accum_all (c :: cs) (all_stores_of (c :: cs))).counts
                items.length = x :: xs := by
              cases hV : valid_stores_of
                  (accum_all (c :: cs) (all_stores_of (c :: cs))).totals
                  (accum_all (c :: cs) (all_stores_of (c :: cs))).counts
                  items.length with
              | nil => exact absurd hV hvne'
              | cons x xs => exact ⟨x, xs, rfl⟩
            refine ⟨(minPricePair (x :: xs)).2, ?_, ?_, ?_⟩
            · rw [hxxs, ← hbs, hxxs]
              exact minByFold_mem Prod.snd x xs
            · rw [← hbt, hxxs]
            · rw [hxxs]
              rw [hxxs] at hbs hbt
              exact minByFold_le Prod.snd x xs

/-- Witness for C3: the spec's 3-item scenario.  Store "X" covers all three
items with total 6 and is the recommended best store; store "Y" covers only
2 of 3, and the eligibility of its entry reduces by the theorem to the
literal comparison `3 * 0.7 <= 2`, which fails. -/
theorem get_best_store_valid_iff_and_min_witness :
    (get_best_store_for_list 0 c3_retrieve ["a", "b", "c"] =
      .ok (.best "X" 6 [("X", 6), ("Y", 1)])) ∧
    ((("Y", (1 : ℚ)) ∈ valid_stores_of c3_state.totals c3_state.counts 3 ↔
      (("Y", (1 : ℚ)) ∈ c3_state.totals ∧
        ((3 : ℕ) : ℚ) * (7/10) ≤ ((alist_get c3_state.counts "Y" 0 : ℕ) : ℚ)))) ∧
    ¬ ((3 : ℕ) : ℚ) * (7/10) ≤ ((alist_get c3_state.counts "Y" 0 : ℕ) : ℚ) :=
  ⟨by with_unfolding_all rfl,
   (get_best_store_valid_iff_and_min 0 c3_retrieve ["a", "b", "c"] c3_comps
      (by with_unfolding_all rfl) c3_state rfl _ rfl).1 "Y" 1,
   by with_unfolding_all decide⟩

/-! ## Claim C4: ordering of the Resolver output -/

theorem brandCapLoop_sublist (translit : String → String) (m : ℕ) :
    ∀ (l : List PlaceTuple) (counts : List (String × ℕ)),
      List.Sublist (brandCapLoop translit m l counts) l := by
  intro l
  induction l with
  | nil => intro counts; simp [brandCapLoop]
  | cons item rest ih =>
      intro counts
      simp only [brandCapLoop]
      split
      · exact (ih _).cons _
      · exact (ih _).cons₂ _

theorem intTrunc_mono {a b : ℚ} (h : a ≤ b) : intTrunc a ≤ intTrunc b := by
  unfold intTrunc
  by_cases ha : a < 0 <;> by_cases hb : b < 0 <;> simp [ha, hb]
  · exact Int.ceil_mono h
  · calc ⌈a⌉ ≤ 0 := Int.ceil_le.mpr (by exact_mod_cast ha.le)
      _ ≤ ⌊b⌋ := Int.floor_nonneg.mpr (le_of_not_lt hb)
  · exact absurd (lt_of_le_of_lt h hb) ha
  · exact Int.floor_mono h

/-- C4 (confirmed): the sorted result list is in non-decreasing distance
order; elements of equal distance appear in first-seen (fetch) order; and
the final output — after brand capping and conversion to output records —
is still in non-decreasing `distance_m` order. -/
theorem find_nearby_places_sorted (hav : ℚ → ℚ → ℚ → ℚ → ℚ)
    (translit : String → String) (lat lng : ℚ)
    (minUnique maxPages maxPerBrand : ℕ) (pages : List Page) :
    (sorted_results hav lat lng minUnique maxPages pages).Pairwise distLE ∧
    (∀ d : ℚ, (sorted_results hav lat lng minUnique maxPages pages).filter
        (fun t => t.dist = d) =
      (fetch_results hav lat lng minUnique maxPages pages).filter
        (fun t => t.dist = d)) ∧
    (find_nearby_places hav translit lat lng minUnique maxPages maxPerBrand
        pages).Pairwise (fun a b => a.distance_m ≤ b.distance_m) := by
  have hsorted : (sorted_results hav lat lng minUnique maxPages pages).Pairwise
      distLE := List.sorted_insertionSort distLE _
  refine ⟨hsorted, ?_, ?_⟩
  · intro d
    set R := fetch_results hav lat lng minUnique maxPages pages with hR
    have hFP : (R.filter (fun t => t.dist = d)).Pairwise distLE := by
      apply List.pairwise_of_forall_mem_list
      intro a ha b hb
      have ha' := (List.mem_filter.mp ha).2
      have hb' := (List.mem_filter.mp hb).2
      simp only [decide_eq_true_eq] at ha' hb'
      show a.dist ≤ b.dist
      rw [ha', hb']
    have hsub : List.Sublist (R.filter (fun t => t.dist = d))
        (R.insertionSort distLE) :=
      List.sublist_insertionSort hFP (List.filter_sublist R)
    have hperm : List.Perm ((R.insertionSort distLE).filter (fun t => t.dist = d))
        (R.filter (fun t => t.dist = d)) :=
      (List.perm_insertionSort distLE R).filter _
    have hself : (R.filter (fun t => t.dist = d)).filter (fun t => t.dist = d) =
        R.filter (fun t => t.dist = d) :=
      List.filter_eq_self.mpr (fun a ha => (List.mem_filter.mp ha).2)
    have hsub2 : List.Sublist (R.filter (fun t => t.dist = d))
        ((R.insertionSort distLE).filter (fun t => t.dist = d)) := by
      have hf := hsub.filter (fun t => t.dist = d)
      rwa [hself] at hf
    exact (hsub2.eq_of_length hperm.length_eq.symm).symm
  · have hcap : List.Sublist
        (if 0 < maxPerBrand then
          brandCapLoop translit maxPerBrand
            (sorted_results hav lat lng minUnique maxPages pages) []
         else sorted_results hav lat lng minUnique maxPages pages)
        (sorted_results hav lat lng minUnique maxPages pages) := by
      split
      · exact brandCapLoop_sublist translit maxPerBrand _ _
      · exact List.Sublist.refl _
    have hpw := hsorted.sublist hcap
    rw [find_nearby_places]
    exact hpw.map outOfTuple (fun a b hab => intTrunc_mono hab)

/-! ## Claim C5: deduplication by place identifier -/

theorem processPage_inv (hav : ℚ → ℚ → ℚ → ℚ → ℚ) (lat lng : ℚ)
    (pl : List RawPlace) (seen : List String) (res : List PlaceTuple)
    (hin : ∀ s ∈ res.map (fun t => t.pid), s ∈ seen)
    (hnd : (res.map (fun t => t.pid)).Nodup) :
    (∀ s ∈ (processPage hav lat lng pl seen res).2.map (fun t => t.pid),
      s ∈ (processPage hav lat lng pl seen res).1) ∧
    ((processPage hav lat lng pl seen res).2.map (fun t => t.pid)).Nodup := by
  induction pl generalizing seen res with
  | nil => exact ⟨hin, hnd⟩
  | cons p rest ih =>
      cases hid : p.id with
      | none =>
          simp only [processPage, hid]
          exact ih seen res hin hnd
      | some pid =>
          by_cases hskip : pid = "" ∨ pid ∈ seen
          · simp only [processPage, hid, if_pos hskip]
            exact ih seen res hin hnd
          · have hpid : pid ∉ seen := fun hm => hskip (Or.inr hm)
            have hin' : ∀ s ∈ res.map (fun t => t.pid), s ∈ seen ++ [pid] :=
              fun s hs => List.mem_append_left _ (hin s hs)
            cases hlat : p.latitude with
            | none =>
                simp only [processPage, hid, if_neg hskip, hlat]
                exact ih (seen ++ [pid]) res hin' hnd
            | some plat =>
                cases hlng : p.longitude with
                | none =>
                    simp only [processPage, hid, if_neg hskip, hlat, hlng]
                    exact ih (seen ++ [pid]) res hin' hnd
                | some plng =>
                    simp only [processPage, hid, if_neg hskip, hlat, hlng]
                    apply ih (seen ++ [pid])
                    · intro s hs
                      rw [List.map_append] at hs
                      rcases List.mem_append.mp hs with hs | hs
                      · exact List.mem_append_left _ (hin s hs)
                      · simp at hs
                        simp [hs]
                    · rw [List.map_append]
                      have hnotin : pid ∉ res.map (fun t => t.pid) :=
                        fun hm => hpid (hin _ hm)
                      simp [List.nodup_append, hnd, hnotin]

theorem fetchPages_nodup (hav : ℚ → ℚ → ℚ → ℚ → ℚ) (lat lng : ℚ)
    (maxPages minUnique : ℕ) (pages : List Page) (n : ℕ) (seen : List String)
    (res : List PlaceTuple)
    (hin : ∀ s ∈ res.map (fun t => t.pid), s ∈ seen)
    (hnd : (res.map (fun t => t.pid)).Nodup) :
    ((fetchPages hav lat lng maxPages minUnique pages n seen res).map
      (fun t => t.pid)).Nodup := by
  induction pages generalizing n seen res with
  | nil => exact hnd
  | cons page rest ih =>
      simp only [fetchPages]
      split
      · obtain ⟨h1, h2⟩ := processPage_inv hav lat lng page.places seen res hin hnd
        split
        · exact ih _ _ _ h1 h2
        · exact h2
      · exact hnd

/-- C5 (confirmed): no two entries of the Resolver's output share the same
place identifier — deduplication is by identifier alone (the skip test in
the page loop consults only the seen-identifier set), so a place appearing
on two pages is kept once. -/
theorem find_nearby_places_nodup_ids (hav : ℚ → ℚ → ℚ → ℚ → ℚ)
    (translit : String → String) (lat lng : ℚ)
    (minUnique maxPages maxPerBrand : ℕ) (pages : List Page) :
    ((find_nearby_places hav translit lat lng minUnique maxPages maxPerBrand
      pages).map (fun e => e.place_id)).Nodup := by
  have hR : ((fetch_results hav lat lng minUnique maxPages pages).map
      (fun t => t.pid)).Nodup :=
    fetchPages_nodup hav lat lng maxPages minUnique pages 0 [] []
      (by simp) (by simp)
  have hperm : List.Perm
      ((sorted_results hav lat lng minUnique maxPages pages).map (fun t => t.pid))
      ((fetch_results hav lat lng minUnique maxPages pages).map (fun t => t.pid)) :=
    (List.perm_insertionSort distLE _).map _
  have hS : ((sorted_results hav lat lng minUnique maxPages pages).map
      (fun t => t.pid)).Nodup := hperm.nodup_iff.mpr hR
  have hcap : List.Sublist
      (if 0 < maxPerBrand then
        brandCapLoop translit maxPerBrand
          (sorted_results hav lat lng minUnique maxPages pages) []
       else sorted_results hav lat lng minUnique maxPages pages)
      (sorted_results hav lat lng minUnique maxPages pages) := by
    split
    · exact brandCapLoop_sublist translit maxPerBrand _ _
    · exact List.Sublist.refl _
  have hcapnd := hS.sublist (hcap.map (fun t => t.pid))
  rw [find_nearby_places, List.map_map]
  exact hcapnd

/-! ## Claim C6: the brand cap -/

theorem length_filter_map_eq {α β : Type} (f : α → β) (p : β → Bool)
    (l : List α) :
    ((l.map f).filter p).length = (l.filter (fun a => p (f a))).length := by
  induction l with
  | nil => simp
  | cons a l ih => by_cases h : p (f a) <;> simp [h, ih]

theorem brandCapLoop_count_le (translit : String → String) (m : ℕ) :
    ∀ (l : List PlaceTuple) (counts : List (String × ℕ)) (k : String),
      alist_get counts k 0 ≤ m →
      ((brandCapLoop translit m l counts).filter
        (fun t => brand_key translit t.name = k)).length +
        alist_get counts k 0 ≤ m := by
  intro l
  induction l with
  | nil => intro counts k h; simpa [brandCapLoop] using h
  | cons item rest ih =>
      intro counts k h
      simp only [brandCapLoop]
      by_cases hbk : brand_key translit item.name = k
      · rw [hbk]
        by_cases hm : m ≤ alist_get counts k 0
        · rw [if_pos hm]
          exact ih counts k h
        · rw [if_neg hm]
          have h' : alist_get (alist_set counts k (alist_get counts k 0 + 1)) k 0 ≤ m := by
            rw [alist_get_set_self]
            omega
          have hrec := ih (alist_set counts k (alist_get counts k 0 + 1)) k h'
          rw [alist_get_set_self] at hrec
          simp only [List.filter_cons, hbk]
          simp only [decide_True, if_true, List.length_cons]
          omega
      · by_cases hm : m ≤ alist_get counts (brand_key translit item.name) 0
        · rw [if_pos hm]
          exact ih counts k h
        · rw [if_neg hm]
          have h' : alist_get (alist_set counts (brand_key translit item.name)
              (alist_get counts (brand_key translit item.name) 0 + 1)) k 0 ≤ m := by
            rw [alist_get_set_ne _ _ _ hbk]
            exact h
          have hrec := ih _ k h'
          rw [alist_get_set_ne _ _ _ hbk] at hrec
          simpa [List.filter_cons, hbk] using hrec

/-- C6 (confirmed): with `max_per_brand ≥ 1` the output of the Resolver
keeps at most `max_per_brand` places sharing any one brand key (derived
from the display name by `brand_key`); with `max_per_brand = 0` capping is
skipped entirely and the output is the deduplicated, distance-sorted list
unchanged. -/
theorem find_nearby_places_brand_cap (hav : ℚ → ℚ → ℚ → ℚ → ℚ)
    (translit : String → String) (lat lng : ℚ)
    (minUnique maxPages maxPerBrand : ℕ) (pages : List Page) :
    (1 ≤ maxPerBrand → ∀ k : String,
      ((find_nearby_places hav translit lat lng minUnique maxPages maxPerBrand
        pages).filter (fun e => brand_key translit e.name = k)).length ≤
        maxPerBrand) ∧
    find_nearby_places hav translit lat lng minUnique maxPages 0 pages =
      (sorted_results hav lat lng minUnique maxPages pages).map outOfTuple := by
  constructor
  · intro h1 k
    rw [find_nearby_places, if_pos (by omega : 0 < maxPerBrand)]
    rw [length_filter_map_eq]
    have hbound := brandCapLoop_count_le translit maxPerBrand
      (sorted_results hav lat lng minUnique maxPages pages) [] k
      (by simp [alist_get])
    simp only [alist_get, Nat.add_zero] at hbound
    simpa [outOfTuple] using hbound
  · rw [find_nearby_places]
    simp

/-- Witness for C6: on the demo pages with cap 1 at most one place with
brand key "lidl" remains. -/
theorem find_nearby_places_brand_cap_witness :
    ((find_nearby_places demo_hav id 0 0 20 5 1 demo_pages).filter
      (fun e => brand_key id e.name = "lidl")).length ≤ 1 :=
  (find_nearby_places_brand_cap demo_hav id 0 0 20 5 1 demo_pages).1
    (le_refl 1) "lidl"

/-! ## Claim C10: malformed places are skipped, outputs are well-formed -/

theorem processPage_origin (hav : ℚ → ℚ → ℚ → ℚ → ℚ) (lat lng : ℚ)
    (pl : List RawPlace) (seen : List String) (res : List PlaceTuple) :
    ∀ t ∈ (processPage hav lat lng pl seen res).2,
      t ∈ res ∨ ∃ p ∈ pl, p.id = some t.pid ∧ t.pid ≠ "" ∧
        p.latitude = some t.plat ∧ p.longitude = some t.plng ∧
        t.name = p.displayName.getD "N/A" ∧
        t.dist = hav lat lng t.plat t.plng := by
  induction pl generalizing seen res with
  | nil => intro t ht; exact Or.inl ht
  | cons p rest ih =>
      intro t ht
      have lift : (t ∈ res ∨ ∃ q ∈ rest, q.id = some t.pid ∧ t.pid ≠ "" ∧
          q.latitude = some t.plat ∧ q.longitude = some t.plng ∧
          t.name = q.displayName.getD "N/A" ∧
          t.dist = hav lat lng t.plat t.plng) →
          (t ∈ res ∨ ∃ q ∈ p :: rest, q.id = some t.pid ∧ t.pid ≠ "" ∧
            q.latitude = some t.plat ∧ q.longitude = some t.plng ∧
            t.name = q.displayName.getD "N/A" ∧
            t.dist = hav lat lng t.plat t.plng) := by
        rintro (h | ⟨q, hq, hrest⟩)
        · exact Or.inl h
        · exact Or.inr ⟨q, List.mem_cons_of_mem _ hq, hrest⟩
      cases hid : p.id with
      | none =>
          simp only [processPage, hid] at ht
          exact lift (ih seen res t ht)
      | some pid =>
          by_cases hskip : pid = "" ∨ pid ∈ seen
          · simp only [processPage, hid, if_pos hskip] at ht
            exact lift (ih seen res t ht)
          · have hpid : pid ≠ "" := fun hm => hskip (Or.inl hm)
            cases hlat : p.latitude with
            | none =>
                simp only [processPage, hid, if_neg hskip, hlat] at ht
                exact lift (ih _ res t ht)
            | some plat =>
                cases hlng : p.longitude with
                | none =>
                    simp only [processPage, hid, if_neg hskip, hlat, hlng] at ht
                    exact lift (ih _ res t ht)
                | some plng =>
                    simp only [processPage, hid, if_neg hskip, hlat, hlng] at ht
                    rcases ih _ _ t ht with hin | hex
                    · rcases List.mem_append.mp hin with hin | hin
                      · exact Or.inl hin
                      · have ht' : t = ⟨hav lat lng plat plng,
                            p.displayName.getD "N/A", plat, plng, pid⟩ := by
                          simpa using hin
                        subst ht'
                        exact Or.inr ⟨p, List.mem_cons_self _ _,
                          by simp [hid, hlat, hlng, hpid]⟩
                    · exact lift (Or.inr hex)

theorem fetchPages_origin (hav : ℚ → ℚ → ℚ → ℚ → ℚ) (lat lng : ℚ)
    (maxPages minUnique : ℕ) (pages : List Page) (n : ℕ) (seen : List String)
    (res : List PlaceTuple) :
    ∀ t ∈ fetchPages hav lat lng maxPages minUnique pages n seen res,
      t ∈ res ∨ ∃ page ∈ pages, ∃ p ∈ page.places, p.id = some t.pid ∧
        t.pid ≠ "" ∧ p.latitude = some t.plat ∧ p.longitude = some t.plng ∧
        t.name = p.displayName.getD "N/A" ∧
        t.dist = hav lat lng t.plat t.plng := by
  induction pages generalizing n seen res with
  | nil => intro t ht; exact Or.inl ht
  | cons page rest ih =>
      intro t ht
      simp only [fetchPages] at ht
      split at ht
      · split at ht
        · rcases ih _ _ _ t ht with hin | ⟨pg, hpg, hex⟩
          · rcases processPage_origin hav lat lng page.places seen res t hin with
              hin' | ⟨p, hp, hcond⟩
            · exact Or.inl hin'
            · exact Or.inr ⟨page, List.mem_cons_self _ _, p, hp, hcond⟩
          · exact Or.inr ⟨pg, List.mem_cons_of_mem _ hpg, hex⟩
        · rcases processPage_origin hav lat lng page.places seen res t ht with
            hin' | ⟨p, hp, hcond⟩
          · exact Or.inl hin'
          · exact Or.inr ⟨page, List.mem_cons_self _ _, p, hp, hcond⟩
      · exact Or.inl ht

/-- C10 (confirmed): every entry of the Resolver's output has a non-empty
place identifier and originates from a response place whose id and both
coordinates were present — places with a missing or empty id or a missing
coordinate are silently skipped, the call still returning normally — and
its `distance_m` is derived from its coordinates. -/
theorem find_nearby_places_entries (hav : ℚ → ℚ → ℚ → ℚ → ℚ)
    (translit : String → String) (lat lng : ℚ)
    (minUnique maxPages maxPerBrand : ℕ) (pages : List Page) :
    ∀ e ∈ find_nearby_places hav translit lat lng minUnique maxPages
        maxPerBrand pages,
      e.place_id ≠ "" ∧ ∃ page ∈ pages, ∃ p ∈ page.places,
        p.id = some e.place_id ∧ p.latitude = some e.lat ∧
        p.longitude = some e.lng ∧ e.name = p.displayName.getD "N/A" ∧
        e.distance_m = intTrunc (hav lat lng e.lat e.lng) := by
  intro e he
  rw [find_nearby_places] at he
  obtain ⟨t, ht, rfl⟩ := List.mem_map.mp he
  have hcap : List.Sublist
      (if 0 < maxPerBrand then
        brandCapLoop translit maxPerBrand
          (sorted_results hav lat lng minUnique maxPages pages) []
       else sorted_results hav lat lng minUnique maxPages pages)
      (sorted_results hav lat lng minUnique maxPages pages) := by
    split
    · exact brandCapLoop_sublist translit maxPerBrand _ _
    · exact List.Sublist.refl _
  have htS : t ∈ sorted_results hav lat lng minUnique maxPages pages :=
    hcap.mem ht
  have htR : t ∈ fetch_results hav lat lng minUnique maxPages pages := by
    rw [sorted_results] at htS
    exact (List.mem_insertionSort distLE).mp htS
  rcases fetchPages_origin hav lat lng maxPages minUnique pages 0 [] [] t htR with
    hin | ⟨page, hpage, p, hp, hid, hpid, hlat, hlng, hname, hdist⟩
  · cases hin
  · refine ⟨hpid, page, hpage, p, hp, hid, hlat, hlng, hname, ?_⟩
    simp [outOfTuple, hdist]

/-- Witness for C10: the first entry of the demo output has a non-empty
identifier. -/
theorem find_nearby_places_entries_witness :
    (⟨1, "Lidl Bar", 1, 0, "p2"⟩ : PlaceOut).place_id ≠ "" :=
  (find_nearby_places_entries demo_hav id 0 0 20 5 1 demo_pages
    ⟨1, "Lidl Bar", 1, 0, "p2"⟩ (by with_unfolding_all decide)).1
